import Mathlib

/-!
# kinfu_remake: the demo application `apps/demo.cpp`

A shallow embedding of `struct KinFuApp` and `main` of `apps/demo.cpp`.

The application is glue around collaborators that live elsewhere (the sensor
`capture_`, the fusion object `kinfu_`, the 3D window `viz`, OpenCV's
`imshow` / `waitKey`, PCL).  Every call to a collaborator is recorded as an
`Event` of a trace, and every answer of a collaborator is read from a `Tick`,
the script of one pass through the loop of `execute`.  The members of
`KinFuApp` that the application itself owns and changes (`exit_`,
`iteractive_mode_`, `cloud_buffer`, `mesh_`) are fields of the state.

The image buffers `view_host_`, `view_device_`, `depth_device_` carry pixels only
and are not part of the state.

Exceptions are modelled where the application asks for memory or hands a size
to a library: `new KinFu(params)` in the constructor, the fusion step
`kinfu(depth_device_)`, `cloud_buffer.create`, and the creation and filling of
the host matrix `cloud_host` (where leaving defined behaviour counts as an
exception that ends the command).

Machine integers: `int` is a 32 bit two's complement number and `size_t` is
64 bit unsigned; both are modelled by `Int` / `Nat` with explicit wrapping.
A `float` is only ever copied by this file, never computed with, so it is
represented by its bit pattern.
-/

namespace KinFu

/-! ## Machine integers -/

/-- Result of an `int` computation: the mathematical value wrapped to 32 bit two's complement. -/
def wrapInt (x : Int) : Int := (x + 2147483648) % 4294967296 - 2147483648

/-- The product `a * b` of two `int`s as in `dims[0]*dims[1]`. -/
def mulInt (a b : Int) : Int := wrapInt (a * b)

/-- Conversion `int -> size_t` applied to the argument of `cloud_buffer.create`. -/
def toSizeT (x : Int) : Nat := (x % 18446744073709551616).toNat

/-- The cast `(int)n` of a `size_t`, also the implicit conversion of the loop index in `at(0,i)`:
the low 32 bits of `n` read as a two's complement number. -/
def toInt (n : Nat) : Int :=
  if n % 4294967296 < 2147483648 then ((n % 4294967296 : Nat) : Int)
  else ((n % 4294967296 : Nat) : Int) - 4294967296

/-! ## Data -/

/-- Bit pattern of a 32 bit `float`. -/
abbrev F32 := Nat

/-- The type `cv::Vec4f`, which is also what `kfusion::Point` is downloaded as. -/
structure Vec4f where
  c0 : F32
  c1 : F32
  c2 : F32
  c3 : F32
  deriving DecidableEq, Repr

/-- The type `pcl::PointXYZ`. -/
structure PointXYZ where
  x : F32
  y : F32
  z : F32
  deriving DecidableEq, Repr

/-- The type `Vec3i` returned by `kinfu.tsdf().getDims()`. -/
structure Vec3i where
  d0 : Int
  d1 : Int
  d2 : Int
  deriving DecidableEq, Repr

/-- The type `pcl::PolygonMesh`: a vertex cloud and the polygons over it. -/
structure PolygonMesh where
  cloud : List PointXYZ
  polygons : List (List Nat)
  deriving DecidableEq, Repr

/-- A default constructed `pcl::PolygonMesh`. -/
def PolygonMesh.empty : PolygonMesh := ⟨[], []⟩

/-- Exceptions that travel through `execute`: `std::bad_alloc`, or another `std::exception`. -/
inductive Exn where
  | bad_alloc
  | other
  deriving DecidableEq, Repr

/-- The texts written to `std::cout` / `std::cerr`. -/
inductive Message where
  | cantGrab
  | gettingMesh
  | savingMesh
  | meshEmpty
  | badAlloc
  | exception
  | preFermi
  deriving DecidableEq, Repr

/-- The characters of each message. -/
def Message.text : Message → String
  | .cantGrab => "Can\x27t grab"
  | .gettingMesh => "\nGetting mesh... "
  | .savingMesh => "Saving mesh to \x27mesh.ply\x27... "
  | .meshEmpty => "Mesh is empty !"
  | .badAlloc => "Bad alloc"
  | .exception => "Exception"
  | .preFermi => "Kinfu is not supported for pre-Fermi GPU architectures, and not built for them by default. Exiting..."

/-- The field `action` of `cv::viz::KeyboardEvent`. -/
inductive KeyAction where
  | KEY_UP
  | KEY_DOWN
  deriving DecidableEq, Repr

/-- The type `cv::viz::KeyboardEvent` as far as `KeyboardCallback` reads it. -/
structure KeyboardEvent where
  action : KeyAction
  code : Nat
  deriving DecidableEq, Repr

/-- Calls to collaborators, in the order they are made. -/
inductive Event where
  /-- The call `viz.wasStopped()` and its answer. -/
  | wasStopped (stopped : Bool)
  /-- The call `capture_.grab(depth, image)` and its answer. -/
  | grab (has_frame : Bool)
  /-- Output to `std::cout`. -/
  | cout (m : Message)
  /-- Output to `std::cerr`. -/
  | cerr (m : Message)
  /-- The call `depth_device_.upload(...)`. -/
  | upload
  /-- The call `kinfu(depth_device_)` that returned `has_image`. -/
  | fusion (has_image : Bool)
  /-- The call `kinfu(depth_device_)` that raised. -/
  | fusionThrew (e : Exn)
  /-- The call `kinfu.renderImage(view_device_, viz.getViewerPose(), mode)`. -/
  | renderViewer (mode : Int)
  /-- The call `kinfu.renderImage(view_device_, mode)`: the pose is the tracked one. -/
  | renderTracked (mode : Int)
  /-- The call `cv::imshow(window, ...)`. -/
  | imshow (window : String)
  /-- The call `viz.setViewerPose(kinfu.getCameraPose())`. -/
  | setViewerPose
  /-- The call `cv::waitKey(3)` and the key it returned. -/
  | waitKey (key : Int)
  /-- The call `viz.spinOnce(3, true)`. -/
  | spinOnce
  /-- The call `cloud_buffer.release()`. -/
  | bufferRelease
  /-- The call `cloud_buffer.create(n)` that succeeded. -/
  | bufferCreate (n : Nat)
  /-- The call `cloud_buffer.create(n)` that raised. -/
  | bufferCreateThrew (n : Nat) (e : Exn)
  /-- The call `kinfu.tsdf().fetchCloud(cloud_buffer)` with a buffer of this capacity. -/
  | fetchCloud (capacity : Nat)
  /-- The call `viz.showWidget("cloud", cv::viz::WCloud(cloud_host))`. -/
  | showCloud (points : List Vec4f)
  /-- The PCL pipeline from `tree->setInputCloud (cloud_pcl)` to `gp3.reconstruct (mesh_)`. -/
  | reconstruct (cloud_pcl : List PointXYZ)
  /-- The call `pcl::io::savePLYFile(file, mesh_)`. -/
  | savePLYFile (file : String) (mesh : PolygonMesh)
  /-- The call `capture.open(...)`, from a file when `argc == 2`. -/
  | captureOpen (fromFile : Bool)
  /-- The calls of the constructor body after `kinfu_` exists. -/
  | vizSetup
  deriving DecidableEq, Repr

/-- Whether the event is a call of the fusion step `kinfu(depth_device_)`. -/
def Event.isFusion : Event → Bool
  | .fusion _ => true
  | .fusionThrew _ => true
  | _ => false

/-- Whether the event is a `cv::waitKey` call. -/
def Event.isWaitKey : Event → Bool
  | .waitKey _ => true
  | _ => false

/-- Whether the event is a `capture_.grab` call. -/
def Event.isGrab : Event → Bool
  | .grab _ => true
  | _ => false

/-- Whether the event is a `capture_.grab` call that reported no frame. -/
def Event.isNoFrame : Event → Bool
  | .grab false => true
  | _ => false

/-- Whether the event puts something on screen (`imshow`, a render, a widget, the viewer pose). -/
def Event.isDisplay : Event → Bool
  | .renderViewer _ => true
  | .renderTracked _ => true
  | .imshow _ => true
  | .setViewerPose => true
  | .showCloud _ => true
  | _ => false

/-! ## The host matrix `cv::Mat cloud_host(1, n, CV_32FC4)` -/

/-- A `cv::Mat` of type `CV_32FC4`. -/
structure Mat where
  rows : Int
  cols : Int
  data : List Vec4f
  deriving DecidableEq, Repr

/-- The constructor `cv::Mat(rows, cols, CV_32FC4)`; a negative size is rejected by OpenCV. -/
def Mat.create (rows cols : Int) : Option Mat :=
  if rows < 0 ∨ cols < 0 then none
  else some ⟨rows, cols, List.replicate (rows * cols).toNat ⟨0, 0, 0, 0⟩⟩

/-- The call `cloud.download(cloud_host.ptr<Point>())`: copies `cloud.size()` points to the start of the
matrix; more points than the matrix holds would be written past its end. -/
def download (cloud : List Vec4f) (m : Mat) : Option Mat :=
  if cloud.length ≤ m.data.length then some { m with data := cloud ++ m.data.drop cloud.length }
  else none

/-- The access `m.at<cv::Vec4f>(r, c)`, defined only inside the matrix. -/
def Mat.at (m : Mat) (r c : Int) : Option Vec4f :=
  if 0 ≤ r ∧ r < m.rows ∧ 0 ≤ c ∧ c < m.cols then m.data[(r * m.cols + c).toNat]? else none

/-- The three assignments `pnt.x = pnt_host[0]; pnt.y = pnt_host[1]; pnt.z = pnt_host[2]`. -/
def toPointXYZ (pnt_host : Vec4f) : PointXYZ := ⟨pnt_host.c0, pnt_host.c1, pnt_host.c2⟩

/-- The loop `for (size_t i=0;i<cloud_device.size();++i)` of `generate_mesh`, entered at index `i` with
`remaining = cloud_device.size() - i` passes to go and `cloud_pcl` holding the points pushed so far. -/
def convert_loop (cloud_host : Mat) : Nat → Nat → List PointXYZ → Option (List PointXYZ)
  | _, 0, cloud_pcl => some cloud_pcl
  | i, remaining + 1, cloud_pcl =>
    match cloud_host.at 0 (toInt i) with
    | none => none
    | some pnt_host => convert_loop cloud_host (i + 1) remaining (cloud_pcl ++ [toPointXYZ pnt_host])

/-- The host copy of a device cloud, as both `take_cloud` and `generate_mesh` make it:
`cv::Mat cloud_host(1, (int)cloud.size(), CV_32FC4)` and the download into it. -/
def host_copy (cloud : List Vec4f) : Option Mat :=
  match Mat.create 1 (toInt cloud.length) with
  | none => none
  | some m => download cloud m

/-- Lines 93-107 of `generate_mesh`: host matrix, download, conversion loop.  `none` when the code
leaves defined behaviour (negative matrix size, write or read outside the matrix). -/
def convert_cloud (cloud_device : List Vec4f) : Option (List PointXYZ) :=
  match host_copy cloud_device with
  | none => none
  | some cloud_host => convert_loop cloud_host 0 cloud_device.length []

/-! ## The application state and the script of its collaborators -/

/-- The members of `KinFuApp` that the application itself writes.  `cloud_buffer` is the capacity of
the `cuda::DeviceArray<Point>` (0 when empty). -/
structure KinFuApp where
  exit_ : Bool
  iteractive_mode_ : Bool
  cloud_buffer : Nat
  mesh_ : PolygonMesh
  deriving DecidableEq, Repr

/-- The member initialisers of the constructor: `exit_ (false), iteractive_mode_(false)`, an empty
`cloud_buffer` and a default `mesh_`. -/
def KinFuApp.init : KinFuApp := ⟨false, false, 0, PolygonMesh.empty⟩

/-- What the collaborators answer during one pass through the loop of `execute`. -/
structure Tick where
  /-- Answer of `viz.wasStopped()`. -/
  stopped : Bool
  /-- Answer of `capture_.grab(depth, image)`. -/
  has_frame : Bool
  /-- Outcome of `kinfu(depth_device_)`. -/
  fusion : Except Exn Bool
  /-- Answer of `cv::waitKey(3)`. -/
  key : Int
  /-- Keyboard events of the 3D window that `viz.spinOnce` hands to `KeyboardCallback`. -/
  viz_keys : List KeyboardEvent
  /-- Answer of `kinfu.tsdf().getDims()`. -/
  dims : Vec3i
  /-- Exception raised by `cloud_buffer.create`, if any. -/
  alloc : Option Exn
  /-- Answer of `kinfu.tsdf().fetchCloud(cloud_buffer)` for a buffer of the given capacity. -/
  fetchCloud : Nat → List Vec4f
  /-- Capacity of `cloud_buffer` after `fetchCloud`, which receives it by reference. -/
  fetchResize : Nat → Nat
  /-- Answer of the PCL pipeline ending in `gp3.reconstruct (mesh_)`. -/
  reconstruct : List PointXYZ → PolygonMesh

/-- How a piece of code ends: falls through, executes `return b`, or raises. -/
inductive Flow where
  | next
  | ret (b : Bool)
  | raise (e : Exn)
  deriving DecidableEq, Repr

/-- State, trace and ending of a piece of code. -/
structure Step where
  app : KinFuApp
  events : List Event
  flow : Flow
  deriving DecidableEq, Repr

/-- Sequencing: the continuation runs only if the first piece falls through. -/
def Step.andThen (s : Step) (f : KinFuApp → Step) : Step :=
  match s.flow with
  | .next => ⟨(f s.app).app, s.events ++ (f s.app).events, (f s.app).flow⟩
  | _ => s

/-! ## Member functions of `KinFuApp` -/

/-- The function `show_depth`. -/
def show_depth : List Event := [Event.imshow "Depth"]

/-- The function `show_raycasted`, with `const int mode = 3`. -/
def show_raycasted (app : KinFuApp) : List Event :=
  (if app.iteractive_mode_ then [Event.renderViewer 3] else [Event.renderTracked 3])
    ++ [Event.imshow "Scene"]

/-- The function `take_cloud`.  A cloud whose size does not fit the `int` column count of the host
matrix ends the command with an exception. -/
def take_cloud (app : KinFuApp) (t : Tick) : Step :=
  let cloud := t.fetchCloud app.cloud_buffer
  let app1 := { app with cloud_buffer := t.fetchResize app.cloud_buffer }
  match host_copy cloud with
  | none => ⟨app1, [Event.fetchCloud app.cloud_buffer], Flow.raise Exn.other⟩
  | some cloud_host =>
    ⟨app1, [Event.fetchCloud app.cloud_buffer, Event.showCloud cloud_host.data], Flow.next⟩

/-- The size passed to `cloud_buffer.create(dims[0]*dims[1]*dims[2])`. -/
def buffer_size (dims : Vec3i) : Nat := toSizeT (mulInt (mulInt dims.d0 dims.d1) dims.d2)

/-- The function `generate_mesh`: release and re-creation of `cloud_buffer`, extraction, conversion
to a PCL cloud, and the PCL pipeline that overwrites `mesh_`. -/
def generate_mesh (app : KinFuApp) (t : Tick) : Step :=
  let n := buffer_size t.dims
  let start := [Event.cout Message.gettingMesh]
    ++ (if app.cloud_buffer ≠ 0 then [Event.bufferRelease] else [])
  match t.alloc with
  | some e => ⟨{ app with cloud_buffer := 0 }, start ++ [Event.bufferCreateThrew n e], Flow.raise e⟩
  | none =>
    let cloud_device := t.fetchCloud n
    let app1 := { app with cloud_buffer := t.fetchResize n }
    match convert_cloud cloud_device with
    | none => ⟨app1, start ++ [Event.bufferCreate n, Event.fetchCloud n], Flow.raise Exn.other⟩
    | some cloud_pcl =>
      ⟨{ app1 with mesh_ := t.reconstruct cloud_pcl },
        start ++ [Event.bufferCreate n, Event.fetchCloud n, Event.reconstruct cloud_pcl], Flow.next⟩

/-- The function `write_mesh`. -/
def write_mesh (app : KinFuApp) : Step :=
  if app.mesh_.polygons ≠ [] then
    ⟨app, [Event.cout Message.savingMesh, Event.savePLYFile "./mesh.ply" app.mesh_], Flow.next⟩
  else
    ⟨app, [Event.cerr Message.meshEmpty], Flow.next⟩

/-- The function `KeyboardCallback`; 116, 84, 105, 73 are the codes of t, T, i, I. -/
def KeyboardCallback (app : KinFuApp) (t : Tick) (event : KeyboardEvent) : Step :=
  if event.action ≠ KeyAction.KEY_DOWN then ⟨app, [], Flow.next⟩
  else
    (if event.code = 116 ∨ event.code = 84 then take_cloud app t else ⟨app, [], Flow.next⟩).andThen
      fun a =>
        if event.code = 105 ∨ event.code = 73 then
          ⟨{ a with iteractive_mode_ := !a.iteractive_mode_ }, [], Flow.next⟩
        else ⟨a, [], Flow.next⟩

/-- The callbacks that `viz.spinOnce` runs, one per queued keyboard event. -/
def dispatch (t : Tick) : KinFuApp → List KeyboardEvent → Step
  | app, [] => ⟨app, [], Flow.next⟩
  | app, event :: events => (KeyboardCallback app t event).andThen fun a => dispatch t a events

/-- The call `viz.spinOnce(3, true)` at the end of the loop body. -/
def spin (app : KinFuApp) (t : Tick) : Step :=
  Step.andThen ⟨app, [Event.spinOnce], Flow.next⟩ fun a => dispatch t a t.viz_keys

/-- The `switch(key)` of `execute`. -/
def key_switch (app : KinFuApp) (t : Tick) (key : Int) : Step :=
  if key = 116 ∨ key = 84 then take_cloud app t
  else if key = 105 ∨ key = 73 then
    ⟨{ app with iteractive_mode_ := !app.iteractive_mode_ }, [], Flow.next⟩
  else if key = 97 ∨ key = 65 then generate_mesh app t
  else if key = 115 ∨ key = 83 then write_mesh app
  else if key = 27 ∨ key = 32 then ⟨{ app with exit_ := true }, [], Flow.next⟩
  else ⟨app, [], Flow.next⟩

/-- Lines 178-192 of `execute` once `kinfu(depth_device_)` has returned `has_image`: upload, fusion,
the two displays and the viewer pose. -/
def frame_events (app : KinFuApp) (has_image : Bool) : List Event :=
  [Event.upload, Event.fusion has_image]
    ++ (if has_image then show_raycasted app else [])
    ++ show_depth
    ++ (if app.iteractive_mode_ then [] else [Event.setViewerPose])

/-- The body of the `for` loop of `execute`. -/
def loop_body (app : KinFuApp) (t : Tick) : Step :=
  if t.has_frame = false then
    ⟨app, [Event.grab false, Event.cout Message.cantGrab], Flow.ret false⟩
  else
    match t.fusion with
    | .error e => ⟨app, [Event.grab true, Event.upload, Event.fusionThrew e], Flow.raise e⟩
    | .ok has_image =>
      (Step.andThen
        ⟨app, Event.grab true :: frame_events app has_image ++ [Event.waitKey t.key], Flow.next⟩
        fun a => key_switch a t t.key).andThen fun a => spin a t

/-- How a run of `execute` ends; `running` when the script is used up with the loop still going. -/
inductive Outcome where
  | returned (b : Bool)
  | threw (e : Exn)
  | running
  deriving DecidableEq, Repr

/-- Final state, trace and ending of a run of `execute`. -/
structure Run where
  app : KinFuApp
  trace : List Event
  outcome : Outcome
  deriving DecidableEq, Repr

/-- The function `execute`: the loop condition `!exit_ && !viz.wasStopped()` is evaluated at the head
of every pass, `viz.wasStopped()` only when `exit_` is false. -/
def execute : KinFuApp → List Tick → Run
  | app, [] => if app.exit_ then ⟨app, [], Outcome.returned true⟩ else ⟨app, [], Outcome.running⟩
  | app, t :: ts =>
    if app.exit_ then ⟨app, [], Outcome.returned true⟩
    else if t.stopped then ⟨app, [Event.wasStopped true], Outcome.returned true⟩
    else
      match (loop_body app t).flow with
      | .next =>
        ⟨(execute (loop_body app t).app ts).app,
          Event.wasStopped false :: (loop_body app t).events
            ++ (execute (loop_body app t).app ts).trace,
          (execute (loop_body app t).app ts).outcome⟩
      | .ret b =>
        ⟨(loop_body app t).app, Event.wasStopped false :: (loop_body app t).events,
          Outcome.returned b⟩
      | .raise e =>
        ⟨(loop_body app t).app, Event.wasStopped false :: (loop_body app t).events,
          Outcome.threw e⟩

/-! ## The function `main` -/

/-- What the outside world gives to one run of the program. -/
structure Session where
  /-- Answer of `cuda::checkIfPreFermiGPU(device)`. -/
  preFermi : Bool
  /-- The argument count `argc`. -/
  argc : Nat
  /-- Exception raised by `new KinFu(params)` in the constructor of `KinFuApp`, if any. -/
  ctor : Option Exn
  /-- The answers of the collaborators during `execute`. -/
  script : List Tick

/-- How the program ends: `main` returns a code, an exception leaves `main` uncaught (which ends the
program through `std::terminate`), or the script is used up with the loop still going. -/
inductive Exit where
  | code (n : Int)
  | uncaught (e : Exn)
  | running
  deriving DecidableEq, Repr

/-- The function `main`: the constructor call `KinFuApp app (capture)` stands before the `try`
block, which holds `app.execute ()` alone. -/
def main (s : Session) : List Event × Exit :=
  if s.preFermi then ([Event.cout Message.preFermi], Exit.code 1)
  else
    let opened := [Event.captureOpen (s.argc = 2)]
    match s.ctor with
    | some e => (opened, Exit.uncaught e)
    | none =>
      let run := execute KinFuApp.init s.script
      let shown := opened ++ [Event.vizSetup] ++ run.trace
      match run.outcome with
      | .returned _ => (shown, Exit.code 0)
      | .threw Exn.bad_alloc => (shown ++ [Event.cout Message.badAlloc], Exit.code 0)
      | .threw Exn.other => (shown ++ [Event.cout Message.exception], Exit.code 0)
      | .running => (shown, Exit.running)

/-! ## Classification of events and steps -/

/-- Events that the commands (`take_cloud`, `generate_mesh`, `write_mesh`) and `viz.spinOnce` with
its callbacks give rise to. -/
def Event.isCommand : Event → Bool
  | .cout _ => true
  | .cerr _ => true
  | .bufferRelease => true
  | .bufferCreate _ => true
  | .bufferCreateThrew _ _ => true
  | .fetchCloud _ => true
  | .showCloud _ => true
  | .reconstruct _ => true
  | .savePLYFile _ _ => true
  | .spinOnce => true
  | _ => false

/-- A piece of code that leaves `exit_` alone, makes only command calls and holds no `return`. -/
def Quiet (app : KinFuApp) (s : Step) : Prop :=
  s.app.exit_ = app.exit_ ∧ (∀ e ∈ s.events, e.isCommand = true) ∧ ∀ b, s.flow ≠ Flow.ret b

/-- Two states that agree on every member except possibly `exit_`. -/
def SameButExit (a b : KinFuApp) : Prop :=
  a.iteractive_mode_ = b.iteractive_mode_ ∧ a.cloud_buffer = b.cloud_buffer ∧ a.mesh_ = b.mesh_

/-- Two pieces of code that made the same calls, ended the same way and left states that agree
except possibly on `exit_`. -/
def Step.SameButExit (s r : Step) : Prop :=
  s.events = r.events ∧ s.flow = r.flow ∧ KinFu.SameButExit s.app r.app

/-! ## Sample inputs -/

/-- Three points as `fetchCloud` may return them. -/
def sample_cloud : List Vec4f := [⟨1, 2, 3, 4⟩, ⟨5, 6, 7, 8⟩, ⟨9, 10, 11, 12⟩]

/-- A pass whose frame is grabbed and fused, with a `2 x 2 x 2` volume holding `sample_cloud`. -/
def sample_tick (key : Int) : Tick :=
  { stopped := false, has_frame := true, fusion := .ok true, key := key, viz_keys := [],
    dims := ⟨2, 2, 2⟩, alloc := none, fetchCloud := fun n => sample_cloud.take n,
    fetchResize := fun n => n, reconstruct := fun c => ⟨c, [[0, 1, 2]]⟩ }

/-- A pass in which the sensor has no frame. -/
def no_frame_tick : Tick :=
  { stopped := false, has_frame := false, fusion := .ok true, key := 0, viz_keys := [],
    dims := ⟨2, 2, 2⟩, alloc := none, fetchCloud := fun n => sample_cloud.take n,
    fetchResize := fun n => n, reconstruct := fun c => ⟨c, [[0, 1, 2]]⟩ }

/-! ## Machine integer facts -/

theorem wrapInt_eq_self (x : Int) (hlo : -2147483648 ≤ x) (hhi : x < 2147483648) : wrapInt x = x := by
  unfold wrapInt
  omega

theorem wrapInt_range (x : Int) : -2147483648 ≤ wrapInt x ∧ wrapInt x < 2147483648 := by
  unfold wrapInt
  omega

theorem wrapInt_shift (x : Int) : ∃ k : Int, wrapInt x = x + 4294967296 * k := by
  refine ⟨-((x + 2147483648) / 4294967296), ?_⟩
  unfold wrapInt
  omega

theorem mulInt_mulInt_eq (a b c : Int) (hlo : -2147483648 ≤ a * b * c) (hhi : a * b * c < 2147483648) :
    mulInt (mulInt a b) c = a * b * c := by
  obtain ⟨k, hk⟩ := wrapInt_shift (a * b)
  obtain ⟨j, hj⟩ := wrapInt_shift (wrapInt (a * b) * c)
  have hr := wrapInt_range (wrapInt (a * b) * c)
  unfold mulInt
  rw [hj] at hr ⊢
  rw [hk] at hr ⊢
  have e : (a * b + 4294967296 * k) * c = a * b * c + 4294967296 * (k * c) := by ring
  rw [e] at hr ⊢
  generalize a * b * c = p at *
  generalize k * c = q at *
  omega

theorem toInt_eq_self (n : Nat) (h : n < 2147483648) : toInt n = (n : Int) := by
  unfold toInt
  have h1 : n % 4294967296 = n := Nat.mod_eq_of_lt (by omega)
  rw [h1, if_pos h]

theorem toInt_eq_wrapInt (n : Nat) : toInt n = wrapInt (n : Int) := by
  unfold toInt wrapInt
  split <;> omega

theorem buffer_size_eq (dims : Vec3i) (hlo : 0 ≤ dims.d0 * dims.d1 * dims.d2)
    (hhi : dims.d0 * dims.d1 * dims.d2 < 2147483648) :
    (buffer_size dims : Int) = dims.d0 * dims.d1 * dims.d2 := by
  unfold buffer_size toSizeT
  rw [mulInt_mulInt_eq _ _ _ (by omega) hhi]
  omega

/-! ## The host matrix and the conversion loop -/

theorem host_copy_eq (cloud : List Vec4f) (h : cloud.length < 2147483648) :
    host_copy cloud = some ⟨1, (cloud.length : Int), cloud⟩ := by
  unfold host_copy Mat.create
  rw [toInt_eq_self _ h]
  have h1 : ¬ ((1 : Int) < 0 ∨ (cloud.length : Int) < 0) := by omega
  simp only [h1, if_false]
  simp [download]

theorem at_host (cloud : List Vec4f) (i : Nat) (h : cloud.length < 2147483648) (hi : i < cloud.length) :
    Mat.at ⟨1, (cloud.length : Int), cloud⟩ 0 (toInt i) = cloud[i]? := by
  unfold Mat.at
  rw [toInt_eq_self _ (by omega)]
  have h1 : (0 : Int) ≤ 0 ∧ (0 : Int) < 1 ∧ (0 : Int) ≤ (i : Int) ∧ (i : Int) < (cloud.length : Int) := by
    omega
  simp only [h1, and_self, if_true]
  simp

theorem convert_loop_eq (cloud : List Vec4f) (h : cloud.length < 2147483648) :
    ∀ (remaining i : Nat) (cloud_pcl : List PointXYZ), i + remaining = cloud.length →
      convert_loop ⟨1, (cloud.length : Int), cloud⟩ i remaining cloud_pcl
        = some (cloud_pcl ++ (cloud.drop i).map toPointXYZ) := by
  intro remaining
  induction remaining with
  | zero =>
    intro i cloud_pcl hi
    have : cloud.drop i = [] := List.drop_eq_nil_of_le (by omega)
    simp [convert_loop, this]
  | succ r ih =>
    intro i cloud_pcl hi
    have hlt : i < cloud.length := by omega
    have hd : cloud.drop i = cloud[i] :: cloud.drop (i + 1) := (List.drop_eq_getElem_cons hlt)
    unfold convert_loop
    rw [at_host cloud i h hlt, List.getElem?_eq_getElem hlt]
    simp only
    rw [ih (i + 1) _ (by omega), hd]
    simp only [List.map_cons, List.append_assoc, List.singleton_append]

theorem convert_cloud_eq (cloud : List Vec4f) (h : cloud.length < 2147483648) :
    convert_cloud cloud = some (cloud.map toPointXYZ) := by
  unfold convert_cloud
  rw [host_copy_eq cloud h]
  have := convert_loop_eq cloud h cloud.length 0 [] (by omega)
  simpa using this

/-! ## Sequencing -/

theorem andThen_next (s : Step) (f : KinFuApp → Step) (h : s.flow = Flow.next) :
    s.andThen f = ⟨(f s.app).app, s.events ++ (f s.app).events, (f s.app).flow⟩ := by
  unfold Step.andThen
  rw [h]

theorem andThen_stop (s : Step) (f : KinFuApp → Step) (h : s.flow ≠ Flow.next) :
    s.andThen f = s := by
  unfold Step.andThen
  cases hs : s.flow with
  | next => exact absurd hs h
  | ret b => rfl
  | raise e => rfl

theorem quiet_andThen {app : KinFuApp} {s : Step} {f : KinFuApp → Step} (hs : Quiet app s)
    (hf : ∀ a, a.exit_ = app.exit_ → Quiet a (f a)) : Quiet app (s.andThen f) := by
  by_cases h : s.flow = Flow.next
  · rw [andThen_next s f h]
    obtain ⟨h1, h2, _⟩ := hs
    obtain ⟨g1, g2, g3⟩ := hf s.app h1
    refine ⟨by simpa [h1] using g1, ?_, g3⟩
    intro e he
    rcases List.mem_append.mp he with he | he
    · exact h2 e he
    · exact g2 e he
  · rw [andThen_stop s f h]
    exact hs

/-! ## The commands -/

theorem take_cloud_quiet (app : KinFuApp) (t : Tick) : Quiet app (take_cloud app t) := by
  unfold take_cloud Quiet
  simp only
  split <;> simp [Event.isCommand]

theorem generate_mesh_quiet (app : KinFuApp) (t : Tick) : Quiet app (generate_mesh app t) := by
  unfold generate_mesh Quiet
  simp only
  split
  · by_cases hb : app.cloud_buffer = 0 <;> simp [Event.isCommand, hb]
  · split <;> by_cases hb : app.cloud_buffer = 0 <;> simp [Event.isCommand, hb]

theorem write_mesh_app (app : KinFuApp) : (write_mesh app).app = app := by
  unfold write_mesh
  split <;> rfl

theorem write_mesh_quiet (app : KinFuApp) : Quiet app (write_mesh app) := by
  unfold write_mesh Quiet
  split <;> simp [Event.isCommand]

theorem KeyboardCallback_quiet (app : KinFuApp) (t : Tick) (event : KeyboardEvent) :
    Quiet app (KeyboardCallback app t event) := by
  unfold KeyboardCallback
  split
  · simp [Quiet]
  · apply quiet_andThen
    · split
      · exact take_cloud_quiet app t
      · simp [Quiet]
    · intro a _
      split <;> simp [Quiet]

theorem dispatch_quiet (t : Tick) (events : List KeyboardEvent) :
    ∀ app, Quiet app (dispatch t app events) := by
  induction events with
  | nil => intro app; simp [dispatch, Quiet]
  | cons event events ih =>
    intro app
    unfold dispatch
    apply quiet_andThen (KeyboardCallback_quiet app t event)
    intro a ha
    exact ih a

theorem spin_quiet (app : KinFuApp) (t : Tick) : Quiet app (spin app t) := by
  unfold spin
  apply quiet_andThen
  · simp [Quiet, Event.isCommand]
  · intro a _
    exact dispatch_quiet t t.viz_keys a

theorem spin_events (app : KinFuApp) (t : Tick) :
    (spin app t).events = Event.spinOnce :: (dispatch t app t.viz_keys).events := by
  unfold spin
  rw [andThen_next _ _ rfl]
  rfl

theorem key_switch_exit (app : KinFuApp) (t : Tick) (key : Int) :
    (key_switch app t key).app.exit_ = (app.exit_ || decide (key = 27 ∨ key = 32)) := by
  unfold key_switch
  split
  · rename_i h
    have : ¬ (key = 27 ∨ key = 32) := by omega
    simp [(take_cloud_quiet app t).1, this]
  split
  · rename_i h
    have : ¬ (key = 27 ∨ key = 32) := by omega
    simp [this]
  split
  · rename_i h
    have : ¬ (key = 27 ∨ key = 32) := by omega
    simp [(generate_mesh_quiet app t).1, this]
  split
  · rename_i h
    have : ¬ (key = 27 ∨ key = 32) := by omega
    simp [write_mesh_app, this]
  split
  · rename_i h
    simp [h]
  · rename_i h
    simp [h]

theorem key_switch_events (app : KinFuApp) (t : Tick) (key : Int) :
    (∀ e ∈ (key_switch app t key).events, e.isCommand = true) ∧
      ∀ b, (key_switch app t key).flow ≠ Flow.ret b := by
  unfold key_switch
  split
  · exact (take_cloud_quiet app t).2
  split
  · simp
  split
  · exact (generate_mesh_quiet app t).2
  split
  · exact (write_mesh_quiet app).2
  split <;> simp

/-! ## One pass through the loop -/

theorem loop_body_no_frame (app : KinFuApp) (t : Tick) (hf : t.has_frame = false) :
    loop_body app t = ⟨app, [Event.grab false, Event.cout Message.cantGrab], Flow.ret false⟩ := by
  unfold loop_body
  rw [if_pos hf]

theorem loop_body_raise (app : KinFuApp) (t : Tick) (e : Exn) (hf : t.has_frame = true)
    (he : t.fusion = .error e) :
    loop_body app t = ⟨app, [Event.grab true, Event.upload, Event.fusionThrew e], Flow.raise e⟩ := by
  unfold loop_body
  rw [if_neg (by simp [hf]), he]

theorem loop_body_frame (app : KinFuApp) (t : Tick) (b : Bool) (hf : t.has_frame = true)
    (hb : t.fusion = .ok b) :
    ∃ tail, (loop_body app t).events
        = Event.grab true :: (frame_events app b ++ Event.waitKey t.key :: tail) ∧
      (∀ e ∈ tail, e.isCommand = true) ∧
      (∀ r, (loop_body app t).flow ≠ Flow.ret r) ∧
      (loop_body app t).app.exit_ = (app.exit_ || decide (t.key = 27 ∨ t.key = 32)) ∧
      ((t.key = 27 ∨ t.key = 32) → ∃ rest, tail = Event.spinOnce :: rest) := by
  have hc := key_switch_events app t t.key
  have hx := key_switch_exit app t t.key
  have e1 : loop_body app t
      = Step.andThen ⟨(key_switch app t t.key).app,
          (Event.grab true :: frame_events app b ++ [Event.waitKey t.key])
            ++ (key_switch app t t.key).events, (key_switch app t t.key).flow⟩
          (fun a => spin a t) := by
    unfold loop_body
    rw [if_neg (by simp [hf]), hb]
    simp only
    rw [andThen_next ⟨app, _, Flow.next⟩ (fun a => key_switch a t t.key) rfl]
  by_cases hn : (key_switch app t t.key).flow = Flow.next
  · unfold Step.andThen at e1
    simp only [hn] at e1
    have hs := spin_quiet (key_switch app t t.key).app t
    refine ⟨(key_switch app t t.key).events ++ (spin (key_switch app t t.key).app t).events,
      ?_, ?_, ?_, ?_, ?_⟩
    · rw [e1]; simp
    · intro e he
      rcases List.mem_append.mp he with he | he
      · exact hc.1 e he
      · exact hs.2.1 e he
    · rw [e1]; exact hs.2.2
    · rw [e1]; simp only; rw [hs.1, hx]
    · intro hk
      have : (key_switch app t t.key).events = [] := by
        unfold key_switch
        have h1 : ¬ (t.key = 116 ∨ t.key = 84) := by omega
        have h2 : ¬ (t.key = 105 ∨ t.key = 73) := by omega
        have h3 : ¬ (t.key = 97 ∨ t.key = 65) := by omega
        have h4 : ¬ (t.key = 115 ∨ t.key = 83) := by omega
        simp only [if_neg h1, if_neg h2, if_neg h3, if_neg h4, if_pos hk]
      rw [this, spin_events]
      exact ⟨_, rfl⟩
  · have e2 := andThen_stop (Step.mk (key_switch app t t.key).app
      ((Event.grab true :: frame_events app b ++ [Event.waitKey t.key])
        ++ (key_switch app t t.key).events) (key_switch app t t.key).flow) (fun a => spin a t) hn
    rw [e2] at e1
    refine ⟨(key_switch app t t.key).events, ?_, hc.1, ?_, ?_, ?_⟩
    · rw [e1]; simp
    · rw [e1]; exact hc.2
    · rw [e1]; exact hx
    · intro hk
      exfalso
      apply hn
      unfold key_switch
      have h1 : ¬ (t.key = 116 ∨ t.key = 84) := by omega
      have h2 : ¬ (t.key = 105 ∨ t.key = 73) := by omega
      have h3 : ¬ (t.key = 97 ∨ t.key = 65) := by omega
      have h4 : ¬ (t.key = 115 ∨ t.key = 83) := by omega
      simp only [if_neg h1, if_neg h2, if_neg h3, if_neg h4, if_pos hk]

theorem fusion_cases (t : Tick) : (∃ e, t.fusion = .error e) ∨ ∃ b, t.fusion = .ok b := by
  cases h : t.fusion with
  | error e => exact Or.inl ⟨e, rfl⟩
  | ok b => exact Or.inr ⟨b, rfl⟩

/-! ## `generate_mesh` -/

theorem generate_mesh_events (app : KinFuApp) (t : Tick) (halloc : t.alloc = none)
    (hn : (t.fetchCloud (buffer_size t.dims)).length < 2147483648) :
    generate_mesh app t =
      ⟨{ app with cloud_buffer := t.fetchResize (buffer_size t.dims),
                  mesh_ := t.reconstruct ((t.fetchCloud (buffer_size t.dims)).map toPointXYZ) },
        [Event.cout Message.gettingMesh]
          ++ (if app.cloud_buffer ≠ 0 then [Event.bufferRelease] else [])
          ++ [Event.bufferCreate (buffer_size t.dims), Event.fetchCloud (buffer_size t.dims),
              Event.reconstruct ((t.fetchCloud (buffer_size t.dims)).map toPointXYZ)],
        Flow.next⟩ := by
  unfold generate_mesh
  simp only [halloc, convert_cloud_eq _ hn]

/-- C9: the conversion loop of `generate_mesh` preserves the extracted cloud.  For an extracted cloud
of `n` points (`n` fitting the `int` column count of the host matrix) the loop succeeds, the cloud
handed to the PCL pipeline is the only one handed over, it has exactly `n` points, and its `i`-th
point carries components 0, 1, 2 of the `i`-th extracted point as `x`, `y`, `z`. -/
theorem generate_mesh_conversion_preserves_cloud (app : KinFuApp) (t : Tick) (cloud : List Vec4f)
    (halloc : t.alloc = none) (hcloud : t.fetchCloud (buffer_size t.dims) = cloud)
    (hn : cloud.length < 2147483648) :
    ∃ cloud_pcl : List PointXYZ,
      convert_cloud cloud = some cloud_pcl ∧
      (∀ c, Event.reconstruct c ∈ (generate_mesh app t).events ↔ c = cloud_pcl) ∧
      cloud_pcl.length = cloud.length ∧
      ∀ i (hi : i < cloud.length),
        cloud_pcl[i]? = some ⟨cloud[i].c0, cloud[i].c1, cloud[i].c2⟩ := by
  subst hcloud
  refine ⟨(t.fetchCloud (buffer_size t.dims)).map toPointXYZ, convert_cloud_eq _ hn, ?_, by simp, ?_⟩
  · intro c
    rw [generate_mesh_events app t halloc hn]
    by_cases hb : app.cloud_buffer = 0 <;> simp [hb, eq_comm]
  · intro i hi
    simp [List.getElem?_eq_getElem hi, toPointXYZ]

/-- C6: in `generate_mesh` the extraction is bounded by the buffer capacity.  When the product of the
volume dimensions is a non-negative `int`, the buffer is created with exactly that capacity after
any previous buffer was released, `fetchCloud` receives that buffer, and if the extracted cloud is no
larger than the capacity then at most that many points reach the PCL cloud and every access
`cloud_host.at(0, i)` of the loop lies inside the `1 x size` host matrix. -/
theorem generate_mesh_bounded_by_buffer (app : KinFuApp) (t : Tick)
    (hlo : 0 ≤ t.dims.d0 * t.dims.d1 * t.dims.d2)
    (hhi : t.dims.d0 * t.dims.d1 * t.dims.d2 < 2147483648)
    (halloc : t.alloc = none)
    (hcap : (t.fetchCloud (buffer_size t.dims)).length ≤ buffer_size t.dims) :
    (buffer_size t.dims : Int) = t.dims.d0 * t.dims.d1 * t.dims.d2 ∧
    (∃ cloud_pcl : List PointXYZ,
      (generate_mesh app t).events =
        [Event.cout Message.gettingMesh]
          ++ (if app.cloud_buffer ≠ 0 then [Event.bufferRelease] else [])
          ++ [Event.bufferCreate (buffer_size t.dims), Event.fetchCloud (buffer_size t.dims),
              Event.reconstruct cloud_pcl] ∧
      (cloud_pcl.length : Int) ≤ t.dims.d0 * t.dims.d1 * t.dims.d2) ∧
    (∃ cloud_host : Mat,
      host_copy (t.fetchCloud (buffer_size t.dims)) = some cloud_host ∧
      cloud_host.rows = 1 ∧
      cloud_host.cols = ((t.fetchCloud (buffer_size t.dims)).length : Int) ∧
      ∀ i, i < (t.fetchCloud (buffer_size t.dims)).length →
        0 ≤ toInt i ∧ toInt i < cloud_host.cols ∧ (cloud_host.at 0 (toInt i)).isSome = true) := by
  have hsize := buffer_size_eq t.dims hlo hhi
  have hn : (t.fetchCloud (buffer_size t.dims)).length < 2147483648 := by omega
  refine ⟨hsize, ⟨_, by rw [generate_mesh_events app t halloc hn], ?_⟩, ⟨_, host_copy_eq _ hn, rfl, rfl, ?_⟩⟩
  · rw [List.length_map]
    omega
  · intro i hi
    rw [at_host _ i hn hi, toInt_eq_self i (by omega)]
    refine ⟨by omega, by simp only; omega, ?_⟩
    simp [List.getElem?_eq_getElem hi]

theorem generate_mesh_conversion_preserves_cloud_witness :
    ∃ cloud_pcl : List PointXYZ,
      convert_cloud sample_cloud = some cloud_pcl ∧
      (∀ c, Event.reconstruct c ∈ (generate_mesh KinFuApp.init (sample_tick 97)).events
        ↔ c = cloud_pcl) ∧
      cloud_pcl.length = sample_cloud.length ∧
      ∀ i (hi : i < sample_cloud.length),
        cloud_pcl[i]? = some ⟨sample_cloud[i].c0, sample_cloud[i].c1, sample_cloud[i].c2⟩ :=
  generate_mesh_conversion_preserves_cloud KinFuApp.init (sample_tick 97) sample_cloud
    (by decide) (by decide) (by decide)

theorem generate_mesh_bounded_by_buffer_witness :
    (buffer_size (sample_tick 97).dims : Int) = 8 ∧
      (generate_mesh KinFuApp.init (sample_tick 97)).events =
        [Event.cout Message.gettingMesh, Event.bufferCreate 8, Event.fetchCloud 8,
          Event.reconstruct [⟨1, 2, 3⟩, ⟨5, 6, 7⟩, ⟨9, 10, 11⟩]] :=
  ⟨(generate_mesh_bounded_by_buffer KinFuApp.init (sample_tick 97)
      (by decide) (by decide) (by decide) (by decide)).1, by decide⟩

/-! ## `write_mesh` -/

/-- C10: `write_mesh` writes the file "./mesh.ply" if and only if `mesh_` has at least one polygon;
with no polygon (as after construction, when `s` is pressed before any mesh was generated) the only
effect is the error message "Mesh is empty !"; the state, `mesh_` included, is unchanged either
way. -/
theorem write_mesh_saves_iff_polygons (app : KinFuApp) (t : Tick) :
    (∀ file mesh, Event.savePLYFile file mesh ∈ (write_mesh app).events ↔
      (app.mesh_.polygons ≠ [] ∧ file = "./mesh.ply" ∧ mesh = app.mesh_)) ∧
    (app.mesh_.polygons = [] → (write_mesh app).events = [Event.cerr Message.meshEmpty]) ∧
    (Event.cerr Message.meshEmpty ∈ (write_mesh app).events ↔ app.mesh_.polygons = []) ∧
    (write_mesh app).app = app ∧
    (write_mesh app).flow = Flow.next ∧
    key_switch KinFuApp.init t 115
      = ⟨KinFuApp.init, [Event.cerr Message.meshEmpty], Flow.next⟩ ∧
    key_switch KinFuApp.init t 83
      = ⟨KinFuApp.init, [Event.cerr Message.meshEmpty], Flow.next⟩ := by
  refine ⟨?_, ?_, ?_, write_mesh_app app, ?_, ?_, ?_⟩
  · intro file mesh
    unfold write_mesh
    by_cases h : app.mesh_.polygons = []
    · simp [h]
    · simp [h]
  · intro h
    simp [write_mesh, h]
  · unfold write_mesh
    by_cases h : app.mesh_.polygons = []
    · simp [h]
    · simp [h]
  · unfold write_mesh
    split <;> rfl
  · simp [key_switch, write_mesh, KinFuApp.init, PolygonMesh.empty]
  · simp [key_switch, write_mesh, KinFuApp.init, PolygonMesh.empty]

theorem write_mesh_saves_iff_polygons_witness :
    (write_mesh KinFuApp.init).events = [Event.cerr Message.meshEmpty] :=
  (write_mesh_saves_iff_polygons KinFuApp.init (sample_tick 115)).2.1 rfl

/-! ## The key commands -/

theorem loop_body_mem_frame (app : KinFuApp) (t : Tick) (b : Bool) (hf : t.has_frame = true)
    (hb : t.fusion = .ok b) (e : Event) (hc : e.isCommand = false) (hw : e.isWaitKey = false)
    (hg : e.isGrab = false) :
    e ∈ (loop_body app t).events ↔ e ∈ frame_events app b := by
  obtain ⟨tail, hev, htail, -, -, -⟩ := loop_body_frame app t b hf hb
  rw [hev]
  constructor
  · intro h
    rcases List.mem_cons.mp h with h | h
    · subst h; simp [Event.isGrab] at hg
    rcases List.mem_append.mp h with h | h
    · exact h
    rcases List.mem_cons.mp h with h | h
    · subst h; simp [Event.isWaitKey] at hw
    · rw [htail e h] at hc; cases hc
  · intro h
    exact List.mem_cons_of_mem _ (List.mem_append_left _ h)

/-- C5: the interactive view is distinct from the tracking view.  `show_raycasted` renders from the
viewer pose exactly when `iteractive_mode_` is true and from the tracked pose exactly when it is
false; a pass of `execute` overwrites the viewer pose with the tracked pose exactly when the frame
was grabbed and fused and `iteractive_mode_` is false, so never in interactive mode; and the render
of a pass uses the viewer pose only in interactive mode. -/
theorem interactive_view_distinct (app : KinFuApp) (t : Tick) :
    ((∃ m, Event.renderViewer m ∈ show_raycasted app) ↔ app.iteractive_mode_ = true) ∧
    ((∃ m, Event.renderTracked m ∈ show_raycasted app) ↔ app.iteractive_mode_ = false) ∧
    (Event.setViewerPose ∈ (loop_body app t).events ↔
      (t.has_frame = true ∧ (∃ b, t.fusion = .ok b) ∧ app.iteractive_mode_ = false)) ∧
    ((∃ m, Event.renderViewer m ∈ (loop_body app t).events) ↔
      (t.has_frame = true ∧ t.fusion = .ok true ∧ app.iteractive_mode_ = true)) ∧
    ((∃ m, Event.renderTracked m ∈ (loop_body app t).events) ↔
      (t.has_frame = true ∧ t.fusion = .ok true ∧ app.iteractive_mode_ = false)) := by
  refine ⟨?_, ?_, ?_, ?_, ?_⟩
  · cases h : app.iteractive_mode_ <;> simp [show_raycasted, h]
  · cases h : app.iteractive_mode_ <;> simp [show_raycasted, h]
  · cases hf : t.has_frame with
    | false => simp [loop_body_no_frame app t hf]
    | true =>
      rcases fusion_cases t with ⟨e, he⟩ | ⟨b, hb⟩
      · simp [loop_body_raise app t e hf he, he]
      · rw [loop_body_mem_frame app t b hf hb Event.setViewerPose rfl rfl rfl]
        cases hm : app.iteractive_mode_ <;> cases b <;>
          simp [frame_events, show_raycasted, show_depth, hm, hb]
  · cases hf : t.has_frame with
    | false => simp [loop_body_no_frame app t hf]
    | true =>
      rcases fusion_cases t with ⟨e, he⟩ | ⟨b, hb⟩
      · simp [loop_body_raise app t e hf he, he]
      · have key : ∀ m, Event.renderViewer m ∈ (loop_body app t).events ↔
            Event.renderViewer m ∈ frame_events app b :=
          fun m => loop_body_mem_frame app t b hf hb (Event.renderViewer m) rfl rfl rfl
        simp only [key]
        cases hm : app.iteractive_mode_ <;> cases b <;>
          simp [frame_events, show_raycasted, show_depth, hm, hb]
  · cases hf : t.has_frame with
    | false => simp [loop_body_no_frame app t hf]
    | true =>
      rcases fusion_cases t with ⟨e, he⟩ | ⟨b, hb⟩
      · simp [loop_body_raise app t e hf he, he]
      · have key : ∀ m, Event.renderTracked m ∈ (loop_body app t).events ↔
            Event.renderTracked m ∈ frame_events app b :=
          fun m => loop_body_mem_frame app t b hf hb (Event.renderTracked m) rfl rfl rfl
        simp only [key]
        cases hm : app.iteractive_mode_ <;> cases b <;>
          simp [frame_events, show_raycasted, show_depth, hm, hb]

theorem interactive_view_distinct_witness :
    Event.setViewerPose ∈ (loop_body KinFuApp.init (sample_tick 0)).events :=
  (interactive_view_distinct KinFuApp.init (sample_tick 0)).2.2.1.mpr ⟨rfl, ⟨true, rfl⟩, rfl⟩

/-- C8: within a pass the fusion step runs before any display, and the scene render depends on its
result.  `show_raycasted` (window "Scene") is called exactly when the frame was grabbed and
`kinfu(depth_device_)` returned true; `show_depth` (window "Depth") is called exactly when the frame
was grabbed and the fusion step returned, whatever it returned; and every display call of the pass
comes after the return of that pass's fusion step. -/
theorem fusion_before_display (app : KinFuApp) (t : Tick) :
    (Event.imshow "Scene" ∈ (loop_body app t).events ↔
      (t.has_frame = true ∧ t.fusion = .ok true)) ∧
    (Event.imshow "Depth" ∈ (loop_body app t).events ↔
      (t.has_frame = true ∧ ∃ b, t.fusion = .ok b)) ∧
    (∀ pre e post, (loop_body app t).events = pre ++ e :: post → e.isDisplay = true →
      ∃ b, t.fusion = .ok b ∧ Event.fusion b ∈ pre) := by
  refine ⟨?_, ?_, ?_⟩
  · cases hf : t.has_frame with
    | false => simp [loop_body_no_frame app t hf]
    | true =>
      rcases fusion_cases t with ⟨e, he⟩ | ⟨b, hb⟩
      · simp [loop_body_raise app t e hf he, he]
      · rw [loop_body_mem_frame app t b hf hb (Event.imshow "Scene") rfl rfl rfl]
        cases hm : app.iteractive_mode_ <;> cases b <;>
          simp [frame_events, show_raycasted, show_depth, hm, hb]
  · cases hf : t.has_frame with
    | false => simp [loop_body_no_frame app t hf]
    | true =>
      rcases fusion_cases t with ⟨e, he⟩ | ⟨b, hb⟩
      · simp [loop_body_raise app t e hf he, he]
      · rw [loop_body_mem_frame app t b hf hb (Event.imshow "Depth") rfl rfl rfl]
        cases hm : app.iteractive_mode_ <;> cases b <;>
          simp [frame_events, show_raycasted, show_depth, hm, hb]
  · intro pre e post hev hd
    cases hf : t.has_frame with
    | false =>
      rw [loop_body_no_frame app t hf] at hev
      have : e ∈ [Event.grab false, Event.cout Message.cantGrab] := by
        simp only at hev
        rw [hev]; simp
      simp only [List.mem_cons, List.mem_singleton, List.not_mem_nil, or_false] at this
      rcases this with h | h <;> subst h <;> simp [Event.isDisplay] at hd
    | true =>
      rcases fusion_cases t with ⟨x, he⟩ | ⟨b, hb⟩
      · rw [loop_body_raise app t x hf he] at hev
        have : e ∈ [Event.grab true, Event.upload, Event.fusionThrew x] := by
          simp only at hev
          rw [hev]; simp
        simp only [List.mem_cons, List.mem_singleton, List.not_mem_nil, or_false] at this
        rcases this with h | h | h <;> subst h <;> simp [Event.isDisplay] at hd
      · obtain ⟨tail, hev2, -⟩ := loop_body_frame app t b hf hb
        refine ⟨b, hb, ?_⟩
        rw [hev2] at hev
        simp only [frame_events, List.cons_append, List.nil_append, List.append_assoc] at hev
        match pre, hev with
        | [], hev =>
          simp only [List.nil_append, List.cons.injEq] at hev
          rw [← hev.1] at hd; simp [Event.isDisplay] at hd
        | [_], hev =>
          simp only [List.cons_append, List.nil_append, List.cons.injEq] at hev
          rw [← hev.2.1] at hd; simp [Event.isDisplay] at hd
        | [_, _], hev =>
          simp only [List.cons_append, List.nil_append, List.cons.injEq] at hev
          rw [← hev.2.2.1] at hd; simp [Event.isDisplay] at hd
        | _ :: _ :: z :: rest, hev =>
          simp only [List.cons_append, List.cons.injEq] at hev
          rw [← hev.2.2.1]; simp

theorem fusion_before_display_witness :
    Event.imshow "Depth" ∈ (loop_body KinFuApp.init (sample_tick 0)).events :=
  (fusion_before_display KinFuApp.init (sample_tick 0)).2.1.mpr ⟨rfl, true, rfl⟩

/-! ## Runs of `execute` -/

theorem split_first (p : Event → Bool) (x : Event) (hx : p x = true) :
    ∀ (F R pre post : List Event), (∀ e ∈ F, p e = false) → pre ++ x :: post = F ++ R →
      ∃ mid, pre = F ++ mid ∧ mid ++ x :: post = R := by
  intro F
  induction F with
  | nil => intro R pre post _ h; exact ⟨pre, rfl, h⟩
  | cons f F ih =>
    intro R pre post hF h
    cases pre with
    | nil =>
      simp only [List.nil_append, List.cons_append, List.cons.injEq] at h
      have := hF f (List.mem_cons_self _ _)
      rw [← h.1, hx] at this
      cases this
    | cons a pre =>
      simp only [List.cons_append, List.cons.injEq] at h
      obtain ⟨mid, h1, h2⟩ := ih R pre post (fun e he => hF e (List.mem_cons_of_mem _ he)) h.2
      exact ⟨mid, by rw [h.1, h1]; rfl, h2⟩

theorem execute_exit (app : KinFuApp) (ts : List Tick) (hx : app.exit_ = true) :
    execute app ts = ⟨app, [], Outcome.returned true⟩ := by
  cases ts <;> simp [execute, hx]

theorem execute_stopped (app : KinFuApp) (t : Tick) (ts : List Tick) (hx : app.exit_ = false)
    (hs : t.stopped = true) :
    execute app (t :: ts) = ⟨app, [Event.wasStopped true], Outcome.returned true⟩ := by
  simp [execute, hx, hs]

theorem execute_next (app : KinFuApp) (t : Tick) (ts : List Tick) (hx : app.exit_ = false)
    (hs : t.stopped = false) (hn : (loop_body app t).flow = Flow.next) :
    execute app (t :: ts) =
      ⟨(execute (loop_body app t).app ts).app,
        Event.wasStopped false :: (loop_body app t).events
          ++ (execute (loop_body app t).app ts).trace,
        (execute (loop_body app t).app ts).outcome⟩ := by
  simp [execute, hx, hs, hn]

theorem execute_ret (app : KinFuApp) (t : Tick) (ts : List Tick) (b : Bool)
    (hx : app.exit_ = false) (hs : t.stopped = false) (hn : (loop_body app t).flow = Flow.ret b) :
    execute app (t :: ts) =
      ⟨(loop_body app t).app, Event.wasStopped false :: (loop_body app t).events,
        Outcome.returned b⟩ := by
  simp [execute, hx, hs, hn]

theorem execute_raise (app : KinFuApp) (t : Tick) (ts : List Tick) (e : Exn)
    (hx : app.exit_ = false) (hs : t.stopped = false)
    (hn : (loop_body app t).flow = Flow.raise e) :
    execute app (t :: ts) =
      ⟨(loop_body app t).app, Event.wasStopped false :: (loop_body app t).events,
        Outcome.threw e⟩ := by
  simp [execute, hx, hs, hn]

theorem frame_events_class (app : KinFuApp) (b : Bool) :
    ∀ e ∈ frame_events app b,
      e.isWaitKey = false ∧ e.isGrab = false ∧ e.isCommand = false ∧ e ≠ Event.wasStopped true := by
  cases hm : app.iteractive_mode_ <;> cases b <;>
    simp [frame_events, show_raycasted, show_depth, hm, Event.isWaitKey, Event.isGrab,
      Event.isCommand]

theorem frame_events_fusion (app : KinFuApp) (b : Bool) :
    ∃ c, frame_events app b = Event.upload :: Event.fusion b :: c := by
  unfold frame_events
  exact ⟨_, rfl⟩

theorem command_class (e : Event) (h : e.isCommand = true) :
    e.isWaitKey = false ∧ e.isGrab = false ∧ e.isFusion = false ∧ e ≠ Event.wasStopped true := by
  cases e <;> simp_all [Event.isCommand, Event.isWaitKey, Event.isGrab, Event.isFusion]

/-- A pass of a run whose frame is grabbed and fused: the shape of the trace from that pass on. -/
theorem execute_frame (app : KinFuApp) (t : Tick) (ts : List Tick) (b : Bool)
    (hx : app.exit_ = false) (hs : t.stopped = false) (hf : t.has_frame = true)
    (hb : t.fusion = .ok b) :
    ∃ tail R,
      (execute app (t :: ts)).trace
        = (Event.wasStopped false :: Event.grab true :: frame_events app b)
            ++ Event.waitKey t.key :: (tail ++ R) ∧
      (∀ e ∈ tail, e.isCommand = true) ∧
      ((t.key = 27 ∨ t.key = 32) → ∃ rest, tail = Event.spinOnce :: rest) ∧
      (loop_body app t).app.exit_ = decide (t.key = 27 ∨ t.key = 32) ∧
      ((R = [] ∧ (execute app (t :: ts)).app = (loop_body app t).app ∧
          ∃ e, (execute app (t :: ts)).outcome = Outcome.threw e) ∨
        (R = (execute (loop_body app t).app ts).trace ∧
          (execute app (t :: ts)).app = (execute (loop_body app t).app ts).app ∧
          (execute app (t :: ts)).outcome = (execute (loop_body app t).app ts).outcome)) := by
  obtain ⟨tail, hev, htail, hret, hexit, hkey⟩ := loop_body_frame app t b hf hb
  rw [hx, Bool.false_or] at hexit
  cases hfl : (loop_body app t).flow with
  | next =>
    refine ⟨tail, (execute (loop_body app t).app ts).trace, ?_, htail, hkey, hexit, Or.inr ?_⟩
    · rw [execute_next app t ts hx hs hfl, hev]
      simp
    · rw [execute_next app t ts hx hs hfl]
      exact ⟨rfl, rfl, rfl⟩
  | ret r => exact absurd hfl (hret r)
  | raise e =>
    refine ⟨tail, [], ?_, htail, hkey, hexit, Or.inl ?_⟩
    · rw [execute_raise app t ts e hx hs hfl, hev]
      simp
    · rw [execute_raise app t ts e hx hs hfl]
      exact ⟨rfl, rfl, e, rfl⟩

theorem noFrame_of_not_grab (e : Event) (h : e.isGrab = false) : e.isNoFrame = false := by
  cases e <;> simp_all [Event.isGrab, Event.isNoFrame]

theorem execute_grab_false (script : List Tick) :
    ∀ (app : KinFuApp) (pre post : List Event),
      (execute app script).trace = pre ++ Event.grab false :: post →
        post = [Event.cout Message.cantGrab] ∧
        (execute app script).outcome = Outcome.returned false ∧
        ∃ init, pre = init ++ [Event.wasStopped false] := by
  have hp : Event.isNoFrame (Event.grab false) = true := rfl
  induction script with
  | nil =>
    intro app pre post h
    cases hx : app.exit_ <;> simp [execute, hx] at h
  | cons t ts ih =>
    intro app pre post h
    cases hx : app.exit_ with
    | true => rw [execute_exit app _ hx] at h; simp at h
    | false =>
      cases hs : t.stopped with
      | true =>
        rw [execute_stopped app t ts hx hs] at h
        obtain ⟨mid, -, h2⟩ := split_first Event.isNoFrame _ hp [Event.wasStopped true] [] pre post
          (by simp [Event.isNoFrame]) (by simpa using h.symm)
        simp at h2
      | false =>
        cases hf : t.has_frame with
        | false =>
          have hb := loop_body_no_frame app t hf
          have hfl : (loop_body app t).flow = Flow.ret false := by rw [hb]
          rw [execute_ret app t ts false hx hs hfl, hb] at h
          rw [execute_ret app t ts false hx hs hfl]
          obtain ⟨mid, h1, h2⟩ := split_first Event.isNoFrame _ hp [Event.wasStopped false]
            [Event.grab false, Event.cout Message.cantGrab] pre post (by simp [Event.isNoFrame])
            (by simpa using h.symm)
          cases mid with
          | nil =>
            simp only [List.nil_append, List.cons.injEq, true_and] at h2
            exact ⟨h2, rfl, [], by simpa using h1⟩
          | cons a mid =>
            simp only [List.cons_append, List.cons.injEq] at h2
            obtain ⟨-, h3⟩ := h2
            cases mid with
            | nil => simp at h3
            | cons a2 mid => simp at h3
        | true =>
          rcases fusion_cases t with ⟨e, he⟩ | ⟨b, hb⟩
          · have hbody := loop_body_raise app t e hf he
            have hfl : (loop_body app t).flow = Flow.raise e := by rw [hbody]
            rw [execute_raise app t ts e hx hs hfl, hbody] at h
            obtain ⟨mid, -, h2⟩ := split_first Event.isNoFrame _ hp
              [Event.wasStopped false, Event.grab true, Event.upload, Event.fusionThrew e] []
              pre post (by simp [Event.isNoFrame]) (by simpa using h.symm)
            simp at h2
          · obtain ⟨tail, R, htr, htail, -, -, hR⟩ := execute_frame app t ts b hx hs hf hb
            rw [htr] at h
            have hF : ∀ e ∈ (Event.wasStopped false :: Event.grab true :: frame_events app b)
                ++ Event.waitKey t.key :: tail, e.isNoFrame = false := by
              intro e he
              simp only [List.mem_append, List.mem_cons] at he
              rcases he with (he | he | he) | he | he
              · subst he; rfl
              · subst he; rfl
              · exact noFrame_of_not_grab e (frame_events_class app b _ he).2.1
              · subst he; rfl
              · exact noFrame_of_not_grab e (command_class _ (htail _ he)).2.1
            obtain ⟨mid, h1, h2⟩ := split_first Event.isNoFrame _ hp _ R pre post hF
              (by rw [← h]; simp)
            rcases hR with ⟨hR, -, -⟩ | ⟨hR, -, hout⟩
            · rw [hR] at h2; simp at h2
            · rw [hR] at h2
              obtain ⟨i1, i2, init, i3⟩ := ih _ mid post h2.symm
              refine ⟨i1, by rw [hout]; exact i2,
                ((Event.wasStopped false :: Event.grab true :: frame_events app b)
                  ++ Event.waitKey t.key :: tail) ++ init, ?_⟩
              rw [h1, i3]
              simp only [List.append_assoc, List.cons_append]

theorem execute_returned_true (script : List Tick) :
    ∀ app : KinFuApp, (execute app script).outcome = Outcome.returned true →
      (execute app script).app.exit_ = true ∨
        (execute app script).trace.getLast? = some (Event.wasStopped true) := by
  induction script with
  | nil =>
    intro app h
    cases hx : app.exit_ <;> simp [execute, hx] at h ⊢
  | cons t ts ih =>
    intro app h
    cases hx : app.exit_ with
    | true => rw [execute_exit app _ hx]; exact Or.inl hx
    | false =>
      cases hs : t.stopped with
      | true => rw [execute_stopped app t ts hx hs]; exact Or.inr rfl
      | false =>
        cases hf : t.has_frame with
        | false =>
          have hb := loop_body_no_frame app t hf
          have hfl : (loop_body app t).flow = Flow.ret false := by rw [hb]
          rw [execute_ret app t ts false hx hs hfl] at h
          simp at h
        | true =>
          rcases fusion_cases t with ⟨e, he⟩ | ⟨b, hb⟩
          · have hbody := loop_body_raise app t e hf he
            have hfl : (loop_body app t).flow = Flow.raise e := by rw [hbody]
            rw [execute_raise app t ts e hx hs hfl] at h
            simp at h
          · obtain ⟨tail, R, htr, -, -, -, hR⟩ := execute_frame app t ts b hx hs hf hb
            rcases hR with ⟨-, -, e, hout⟩ | ⟨hR, happ, hout⟩
            · rw [hout] at h; simp at h
            · rw [hout] at h
              rcases ih _ h with h1 | h1
              · exact Or.inl (by rw [happ]; exact h1)
              · refine Or.inr ?_
                rw [htr, hR]
                simp only [← List.cons_append, ← List.append_assoc]
                rw [List.getLast?_append, h1]
                rfl

theorem execute_after_exit_key (script : List Tick) :
    ∀ (app : KinFuApp) (pre post : List Event) (k : Int), (k = 27 ∨ k = 32) →
      (execute app script).trace = pre ++ Event.waitKey k :: post →
        (execute app script).app.exit_ = true ∧
        (execute app script).outcome ≠ Outcome.running ∧
        (∃ rest, post = Event.spinOnce :: rest) ∧
        (∀ e ∈ post, e.isCommand = true) ∧
        ∃ a b c, pre = a ++ Event.fusion b :: c ∧ ∀ e ∈ c, e.isGrab = false := by
  have hp : ∀ k, Event.isWaitKey (Event.waitKey k) = true := fun _ => rfl
  induction script with
  | nil =>
    intro app pre post k _ h
    cases hx : app.exit_ <;> simp [execute, hx] at h
  | cons t ts ih =>
    intro app pre post k hk h
    cases hx : app.exit_ with
    | true => rw [execute_exit app _ hx] at h; simp at h
    | false =>
      cases hs : t.stopped with
      | true =>
        rw [execute_stopped app t ts hx hs] at h
        obtain ⟨mid, -, h2⟩ := split_first Event.isWaitKey _ (hp k) [Event.wasStopped true] []
          pre post (by simp [Event.isWaitKey]) (by simpa using h.symm)
        simp at h2
      | false =>
        cases hf : t.has_frame with
        | false =>
          have hb := loop_body_no_frame app t hf
          have hfl : (loop_body app t).flow = Flow.ret false := by rw [hb]
          rw [execute_ret app t ts false hx hs hfl, hb] at h
          obtain ⟨mid, -, h2⟩ := split_first Event.isWaitKey _ (hp k)
            [Event.wasStopped false, Event.grab false, Event.cout Message.cantGrab] []
            pre post (by simp [Event.isWaitKey]) (by simpa using h.symm)
          simp at h2
        | true =>
          rcases fusion_cases t with ⟨e, he⟩ | ⟨b, hb⟩
          · have hbody := loop_body_raise app t e hf he
            have hfl : (loop_body app t).flow = Flow.raise e := by rw [hbody]
            rw [execute_raise app t ts e hx hs hfl, hbody] at h
            obtain ⟨mid, -, h2⟩ := split_first Event.isWaitKey _ (hp k)
              [Event.wasStopped false, Event.grab true, Event.upload, Event.fusionThrew e] []
              pre post (by simp [Event.isWaitKey]) (by simpa using h.symm)
            simp at h2
          · obtain ⟨tail, R, htr, htail, hspin, hexit, hR⟩ := execute_frame app t ts b hx hs hf hb
            rw [htr] at h
            have hF : ∀ e ∈ (Event.wasStopped false :: Event.grab true :: frame_events app b),
                e.isWaitKey = false := by
              intro e he
              simp only [List.mem_cons] at he
              rcases he with he | he | he
              · subst he; rfl
              · subst he; rfl
              · exact (frame_events_class app b _ he).1
            obtain ⟨mid, h1, h2⟩ := split_first Event.isWaitKey _ (hp k) _ _ pre post hF h.symm
            obtain ⟨c, hc⟩ := frame_events_fusion app b
            have hcg : ∀ e ∈ c, e.isGrab = false := by
              intro e he
              exact (frame_events_class app b e (by rw [hc]; simp [he])).2.1
            cases mid with
            | nil =>
              simp only [List.nil_append, List.cons.injEq, Event.waitKey.injEq] at h2
              obtain ⟨hkey, hpost⟩ := h2
              subst hkey
              have hex : (loop_body app t).app.exit_ = true := by rw [hexit]; simpa using hk
              have hRnil : R = [] := by
                rcases hR with ⟨hR, -, -⟩ | ⟨hR, -, -⟩
                · exact hR
                · rw [hR, execute_exit _ _ hex]
              rw [hRnil, List.append_nil] at hpost
              subst hpost
              refine ⟨?_, ?_, hspin hk, htail, [Event.wasStopped false, Event.grab true, Event.upload],
                b, c, ?_, hcg⟩
              · rcases hR with ⟨-, happ, -⟩ | ⟨-, happ, -⟩
                · rw [happ]; exact hex
                · rw [happ, execute_exit _ _ hex]; exact hex
              · rcases hR with ⟨-, -, e, hout⟩ | ⟨-, -, hout⟩
                · rw [hout]; simp
                · rw [hout, execute_exit _ _ hex]; simp
              · rw [h1, hc]; simp
            | cons w mid =>
              simp only [List.cons_append, List.cons.injEq] at h2
              obtain ⟨-, h3⟩ := h2
              obtain ⟨mid2, h4, h5⟩ := split_first Event.isWaitKey _ (hp k) tail R mid post
                (fun e he => (command_class e (htail e he)).1) h3
              rcases hR with ⟨hR, -, -⟩ | ⟨hR, happ, hout⟩
              · rw [hR] at h5; simp at h5
              · rw [hR] at h5
                obtain ⟨i1, i2, i3, i4, a, b2, c2, i5, i6⟩ := ih _ mid2 post k hk h5.symm
                refine ⟨by rw [happ]; exact i1, by rw [hout]; exact i2, i3, i4,
                  (Event.wasStopped false :: Event.grab true :: frame_events app b) ++ w :: tail ++ a,
                  b2, c2, ?_, i6⟩
                rw [h1, h4, i5]
                simp only [List.append_assoc, List.cons_append]

/-- C1: a tick without a frame.  Whenever `capture_.grab` reports no frame in a run of `execute`,
that pass consists of the `viz.wasStopped()` test, the grab and the message "Can't grab" and
nothing else: no upload, no fusion step, no display; the run ends there with `execute` returning
false.  And `execute` returns true only if `exit_` is set or the last call was a
`viz.wasStopped()` that answered true. -/
theorem no_frame_is_propagated (app : KinFuApp) (script : List Tick) :
    (∀ pre post, (execute app script).trace = pre ++ Event.grab false :: post →
      (∃ init, pre = init ++ [Event.wasStopped false]) ∧
      post = [Event.cout Message.cantGrab] ∧
      (∀ e ∈ post, e ≠ Event.upload ∧ e.isFusion = false ∧ e.isDisplay = false) ∧
      (execute app script).outcome = Outcome.returned false) ∧
    ((execute app script).outcome = Outcome.returned true →
      (execute app script).app.exit_ = true ∨
        (execute app script).trace.getLast? = some (Event.wasStopped true)) ∧
    (∀ t : Tick, t.has_frame = false →
      loop_body app t
        = ⟨app, [Event.grab false, Event.cout Message.cantGrab], Flow.ret false⟩) := by
  refine ⟨?_, execute_returned_true script app, fun t ht => loop_body_no_frame app t ht⟩
  intro pre post h
  obtain ⟨h1, h2, h3⟩ := execute_grab_false script app pre post h
  refine ⟨h3, h1, ?_, h2⟩
  subst h1
  simp [Event.isFusion, Event.isDisplay]

theorem no_frame_is_propagated_witness :
    (execute KinFuApp.init [sample_tick 0, no_frame_tick, sample_tick 0]).outcome
      = Outcome.returned false :=
  ((no_frame_is_propagated KinFuApp.init [sample_tick 0, no_frame_tick, sample_tick 0]).1
    [Event.wasStopped false, Event.grab true, Event.upload, Event.fusion true,
      Event.renderTracked 3, Event.imshow "Scene", Event.imshow "Depth", Event.setViewerPose,
      Event.waitKey 0, Event.spinOnce, Event.wasStopped false]
    [Event.cout Message.cantGrab] (by decide)).2.2.2

/-- C2 as stated fails: with no frame on the first tick and a frame on the second, `execute`
returns false after the first tick and no fusion step is ever run; `main` then returns 0. -/
theorem no_frame_then_frame_counterexample :
    no_frame_tick.has_frame = false ∧ (sample_tick 0).has_frame = true ∧
    (execute KinFuApp.init [no_frame_tick, sample_tick 0]).trace
      = [Event.wasStopped false, Event.grab false, Event.cout Message.cantGrab] ∧
    (∀ e ∈ (execute KinFuApp.init [no_frame_tick, sample_tick 0]).trace, e.isFusion = false) ∧
    (execute KinFuApp.init [no_frame_tick, sample_tick 0]).outcome = Outcome.returned false ∧
    (main ⟨false, 1, none, [no_frame_tick, sample_tick 0]⟩).2 = Exit.code 0 := by
  decide

theorem execute_no_frame_rest (pre : List Tick) (t : Tick) (rest : List Tick)
    (h : t.has_frame = false) :
    ∀ app : KinFuApp, execute app (pre ++ t :: rest) = execute app (pre ++ [t]) ∧
      (execute app (pre ++ [t])).outcome ≠ Outcome.running := by
  induction pre with
  | nil =>
    intro app
    simp only [List.nil_append]
    cases hx : app.exit_ with
    | true => rw [execute_exit app _ hx, execute_exit app _ hx]; simp
    | false =>
      cases hs : t.stopped with
      | true => rw [execute_stopped app t _ hx hs, execute_stopped app t _ hx hs]; simp
      | false =>
        have hb := loop_body_no_frame app t h
        have hfl : (loop_body app t).flow = Flow.ret false := by rw [hb]
        rw [execute_ret app t _ false hx hs hfl, execute_ret app t _ false hx hs hfl]
        simp
  | cons p pre ih =>
    intro app
    simp only [List.cons_append]
    cases hx : app.exit_ with
    | true => rw [execute_exit app _ hx, execute_exit app _ hx]; simp
    | false =>
      cases hs : p.stopped with
      | true => rw [execute_stopped app p _ hx hs, execute_stopped app p _ hx hs]; simp
      | false =>
        cases hfl : (loop_body app p).flow with
        | next =>
          rw [execute_next app p _ hx hs hfl, execute_next app p _ hx hs hfl]
          obtain ⟨i1, i2⟩ := ih (loop_body app p).app
          rw [i1]
          exact ⟨rfl, i2⟩
        | ret b => rw [execute_ret app p _ b hx hs hfl, execute_ret app p _ b hx hs hfl]; simp
        | raise e =>
          rw [execute_raise app p _ e hx hs hfl, execute_raise app p _ e hx hs hfl]; simp

/-- C2 amended: a "no frame available" report ends the session without a failure.  Whatever
ticks follow a tick without a frame, the run of `execute` is the same as if the script ended with
that tick: no later tick is run, so no fusion step runs on a later frame; the run is over (at the
latest with "Can't grab" and `return false`), and `main` ends with exit code 0. -/
theorem no_frame_ends_session (app : KinFuApp) (pre : List Tick) (t : Tick) (rest : List Tick)
    (argc : Nat) (h : t.has_frame = false) :
    execute app (pre ++ t :: rest) = execute app (pre ++ [t]) ∧
    (execute app (pre ++ [t])).outcome ≠ Outcome.running ∧
    execute app (t :: rest) = (if app.exit_ then ⟨app, [], Outcome.returned true⟩
      else if t.stopped then ⟨app, [Event.wasStopped true], Outcome.returned true⟩
      else ⟨app, [Event.wasStopped false, Event.grab false, Event.cout Message.cantGrab],
        Outcome.returned false⟩) ∧
    (main ⟨false, argc, none, pre ++ t :: rest⟩).2 = Exit.code 0 := by
  obtain ⟨h1, h2⟩ := execute_no_frame_rest pre t rest h app
  refine ⟨h1, h2, ?_, ?_⟩
  · cases hx : app.exit_ with
    | true => rw [execute_exit app _ hx]; simp
    | false =>
      cases hs : t.stopped with
      | true => rw [execute_stopped app t _ hx hs]; simp
      | false =>
        have hb := loop_body_no_frame app t h
        have hfl : (loop_body app t).flow = Flow.ret false := by rw [hb]
        rw [execute_ret app t _ false hx hs hfl, hb]
        simp
  · obtain ⟨g1, g2⟩ := execute_no_frame_rest pre t rest h KinFuApp.init
    rw [← g1] at g2
    unfold main
    simp only [Bool.false_eq_true, if_false]
    cases ho : (execute KinFuApp.init (pre ++ t :: rest)).outcome with
    | returned b => rfl
    | threw e => cases e <;> rfl
    | running => exact absurd ho g2

theorem no_frame_ends_session_witness :
    execute KinFuApp.init ([sample_tick 0] ++ no_frame_tick :: [sample_tick 97, sample_tick 27])
      = execute KinFuApp.init ([sample_tick 0] ++ [no_frame_tick]) :=
  (no_frame_ends_session KinFuApp.init [sample_tick 0] no_frame_tick
    [sample_tick 97, sample_tick 27] 1 (by decide)).1

theorem sameButExit_andThen {s r : Step} {f g : KinFuApp → Step} (h : Step.SameButExit s r)
    (hf : ∀ a b, SameButExit a b → Step.SameButExit (f a) (g b)) :
    Step.SameButExit (s.andThen f) (r.andThen g) := by
  obtain ⟨h1, h2, h3⟩ := h
  by_cases hn : s.flow = Flow.next
  · rw [andThen_next s f hn, andThen_next r g (by rw [← h2]; exact hn)]
    obtain ⟨g1, g2, g3⟩ := hf s.app r.app h3
    exact ⟨by simp only [h1, g1], g2, g3⟩
  · rw [andThen_stop s f hn, andThen_stop r g (by rw [← h2]; exact hn)]
    exact ⟨h1, h2, h3⟩

theorem take_cloud_same (a b : KinFuApp) (t : Tick) (h : SameButExit a b) :
    Step.SameButExit (take_cloud a t) (take_cloud b t) := by
  obtain ⟨h1, h2, h3⟩ := h
  unfold take_cloud
  simp only [h2]
  split <;> exact ⟨rfl, rfl, h1, rfl, h3⟩

theorem generate_mesh_same (a b : KinFuApp) (t : Tick) (h : SameButExit a b) :
    Step.SameButExit (generate_mesh a t) (generate_mesh b t) := by
  obtain ⟨h1, h2, h3⟩ := h
  unfold generate_mesh
  simp only [h2]
  split
  · exact ⟨rfl, rfl, h1, rfl, h3⟩
  · split
    · exact ⟨rfl, rfl, h1, rfl, h3⟩
    · exact ⟨rfl, rfl, h1, rfl, rfl⟩

theorem write_mesh_same (a b : KinFuApp) (h : SameButExit a b) :
    Step.SameButExit (write_mesh a) (write_mesh b) := by
  have h' := h
  obtain ⟨h1, h2, h3⟩ := h
  unfold write_mesh
  simp only [h3]
  split
  · exact ⟨rfl, rfl, h'⟩
  · exact ⟨rfl, rfl, h'⟩

theorem key_switch_same (a b : KinFuApp) (t : Tick) (key : Int) (h : SameButExit a b) :
    Step.SameButExit (key_switch a t key) (key_switch b t key) := by
  unfold key_switch
  split
  · exact take_cloud_same a b t h
  split
  · exact ⟨rfl, rfl, by simp only [h.1], h.2.1, h.2.2⟩
  split
  · exact generate_mesh_same a b t h
  split
  · exact write_mesh_same a b h
  split
  · exact ⟨rfl, rfl, h⟩
  · exact ⟨rfl, rfl, h⟩

theorem KeyboardCallback_same (a b : KinFuApp) (t : Tick) (event : KeyboardEvent)
    (h : SameButExit a b) :
    Step.SameButExit (KeyboardCallback a t event) (KeyboardCallback b t event) := by
  unfold KeyboardCallback
  split
  · exact ⟨rfl, rfl, h⟩
  · apply sameButExit_andThen
    · split
      · exact take_cloud_same a b t h
      · exact ⟨rfl, rfl, h⟩
    · intro x y hxy
      split
      · exact ⟨rfl, rfl, by simp only [hxy.1], hxy.2.1, hxy.2.2⟩
      · exact ⟨rfl, rfl, hxy⟩

theorem dispatch_same (t : Tick) (events : List KeyboardEvent) :
    ∀ a b, SameButExit a b → Step.SameButExit (dispatch t a events) (dispatch t b events) := by
  induction events with
  | nil => intro a b h; exact ⟨rfl, rfl, h⟩
  | cons event events ih =>
    intro a b h
    unfold dispatch
    exact sameButExit_andThen (KeyboardCallback_same a b t event h) ih

theorem loop_body_same (a b : KinFuApp) (t : Tick) (h : SameButExit a b) :
    Step.SameButExit (loop_body a t) (loop_body b t) := by
  unfold loop_body
  split
  · exact ⟨rfl, rfl, h⟩
  · split
    · exact ⟨rfl, rfl, h⟩
    · apply sameButExit_andThen
      · apply sameButExit_andThen
        · refine ⟨?_, rfl, h⟩
          simp only [frame_events, show_raycasted, h.1]
        · intro x y hxy
          exact key_switch_same x y t t.key hxy
      · intro x y hxy
        unfold spin
        apply sameButExit_andThen
        · exact ⟨rfl, rfl, hxy⟩
        · intro x y hxy
          exact dispatch_same t t.viz_keys x y hxy

/-- C4: the pipeline is stopped only between frames.  The body of the loop never tests `exit_`:
its calls and the way it ends are the same whatever `exit_` holds.  When a run of `execute` reads
key 27 or 32, the fusion step of that pass had already returned (it stands before the key in the
trace, with no grab in between); the pass is completed through its last statement
`viz.spinOnce`; after the key there is no fusion step, no grab and no further key read; `exit_`
is true in the final state; and the run has ended. -/
theorem stop_only_between_frames (app : KinFuApp) (script : List Tick) (pre post : List Event)
    (k : Int) (hk : k = 27 ∨ k = 32)
    (h : (execute app script).trace = pre ++ Event.waitKey k :: post) :
    (∀ (t : Tick) (x : Bool),
      (loop_body { app with exit_ := x } t).events = (loop_body app t).events ∧
      (loop_body { app with exit_ := x } t).flow = (loop_body app t).flow) ∧
    (execute app script).app.exit_ = true ∧
    (execute app script).outcome ≠ Outcome.running ∧
    (∃ rest, post = Event.spinOnce :: rest) ∧
    (∀ e ∈ post, e.isFusion = false ∧ e.isGrab = false ∧ e.isWaitKey = false) ∧
    ∃ a b c, pre = a ++ Event.fusion b :: c ∧ ∀ e ∈ c, e.isGrab = false := by
  obtain ⟨h1, h2, h3, h4, h5⟩ := execute_after_exit_key script app pre post k hk h
  refine ⟨?_, h1, h2, h3, ?_, h5⟩
  · intro t x
    obtain ⟨g1, g2, -⟩ := loop_body_same { app with exit_ := x } app t ⟨rfl, rfl, rfl⟩
    exact ⟨g1, g2⟩
  · intro e he
    obtain ⟨c1, c2, c3, -⟩ := command_class e (h4 e he)
    exact ⟨c3, c2, c1⟩

theorem stop_only_between_frames_witness :
    (execute KinFuApp.init [sample_tick 27, sample_tick 0]).app.exit_ = true ∧
    (execute KinFuApp.init [sample_tick 27, sample_tick 0]).outcome = Outcome.returned true :=
  ⟨(stop_only_between_frames KinFuApp.init [sample_tick 27, sample_tick 0]
      [Event.wasStopped false, Event.grab true, Event.upload, Event.fusion true,
        Event.renderTracked 3, Event.imshow "Scene", Event.imshow "Depth", Event.setViewerPose]
      [Event.spinOnce] 27 (by decide) (by decide)).2.1, by decide⟩

/-- C3, the constructor path: a `std::bad_alloc` raised by `new KinFu(params)` while
`KinFuApp app (capture)` is constructed is outside the `try` block of `main`.  It leaves `main`
uncaught, "Bad alloc" is not printed, and no frame is processed. -/
theorem main_constructor_bad_alloc_uncaught (argc : Nat) (script : List Tick) :
    main ⟨false, argc, some Exn.bad_alloc, script⟩
      = ([Event.captureOpen (decide (argc = 2))], Exit.uncaught Exn.bad_alloc) := by
  rfl

/-- The `execute` path of C3: a `std::bad_alloc` that leaves `execute` is caught by `main`, which
prints "Bad alloc" after the trace of the run and returns 0. -/
theorem main_execute_bad_alloc_reported (s : Session) (hp : s.preFermi = false)
    (hc : s.ctor = none)
    (h : (execute KinFuApp.init s.script).outcome = Outcome.threw Exn.bad_alloc) :
    main s = ([Event.captureOpen (decide (s.argc = 2))] ++ [Event.vizSetup]
        ++ (execute KinFuApp.init s.script).trace ++ [Event.cout Message.badAlloc],
      Exit.code 0) := by
  unfold main
  simp only [hp, hc, h, Bool.false_eq_true, if_false]

end KinFu
